import Mathlib

/-!
Verification of `pallet-fuso-reward` (src/pallet-fuso-reward/src/lib.rs).

The pallet is an era-based pro-rata reward ledger.  Per account it stores a
`Reward { confirmed, pending_vol, last_modify }` record (storage map `Rewards`,
`ValueQuery` with an all-zero default), and per era-start tick it stores the
total traded volume (storage map `Volumes`).  Three operations matter:

* `rotate_reward at vol account` — the core rotation (lib.rs lines 146-179);
* `claim_reward who at`          — claim (lib.rs lines 119-143);
* `save_trading trader vol at`   — volume recording (lib.rs lines 201-216).

Concrete instantiation follows mock.rs: `Balance = Volume = u128`,
`BlockNumber = u32`, `AccountId` opaque.  We embed machine integers as `Nat`
with explicit bounds: every checked addition is `checked_add`, failing exactly
when the mathematical sum exceeds `2^128 - 1`.  Failing operations return
`Except Err`; since the Rust functions are `#[transactional]`, an error rolls
back every storage write, which the embedding renders by the error carrying no
state (the caller keeps the pre-call state).

The proportional share is computed with `sp_arithmetic::Perquintill`
(parts-per-10^18 fixed point, `Inner = u64`, `Upper = u128`):

* `Perquintill::from_rational(p, q)` reduces `p, q` by
  `factor = max(ceil(q / 10^18), 1)` and returns
  `⌊(p / factor) · 10^18 / (q / factor)⌋` (rounding *down*; the reduction is
  exact whenever `q ≤ 10^18`);
* `per * b` (the `Mul` impl) is `overflow_prune_mul`:
  `(b / 10^18) · part + c` where the correction `c` is
  `(b % 10^18) · part / 10^18` rounded to *nearest*, ties rounded down
  (`Rounding::Nearest`: round up iff the remainder strictly exceeds half the
  denominator).

These two functions are modelled bit-exactly below (`from_rational`,
`perquintill_mul`); all intermediate products fit in `u128`
(`part ≤ 10^18`, so `rem · part ≤ 10^36 < 2^128` and
`(b / 10^18) · part ≤ b`), so the plain `Nat` arithmetic coincides with the
Rust `u128` arithmetic.
-/

namespace FusoReward

/-- The constant `u128::MAX`: `Balance` and `Volume` are `u128` in the mock runtime. -/
def U128_MAX : Nat := 2 ^ 128 - 1

/-- Model of `u128::checked_add`: `some (a + b)` unless the sum overflows `u128`. -/
def checked_add (a b : Nat) : Option Nat :=
  if a + b ≤ U128_MAX then some (a + b) else none

/-- The accuracy `Perquintill::ACCURACY = 10^18`. -/
def quintill : Nat := 10 ^ 18

/-- The `div_ceil` closure inside `PerThing::from_rational`. -/
def div_ceil (x f : Nat) : Nat :=
  if x % f = 0 then x / f else x / f + 1

/-- Model of `Perquintill::from_rational(p, q)` (sp_arithmetic), returning the raw
parts-per-quintillion value: clamp `q` to at least 1 and `p` to at most `q`,
reduce both by `factor = max (div_ceil q 10^18) 1` so they fit in `u64`, then
take `p' · 10^18 / q'` rounded down. -/
def from_rational (p q : Nat) : Nat :=
  let q1 := max q 1
  let p1 := min p q1
  let factor := max (div_ceil q1 quintill) 1
  let q_reduce := q1 / factor
  let p_reduce := p1 / factor
  p_reduce * quintill / q_reduce

/-- Model of `rational_mul_correction::<u128, Perquintill>(x, part, ACCURACY,
Rounding::Nearest)`: the error term `(x % 10^18) · part / 10^18`, rounded to
nearest with ties rounded down. -/
def rational_mul_correction (x part : Nat) : Nat :=
  let rem_mul := x % quintill * part
  if quintill / 2 < rem_mul % quintill then rem_mul / quintill + 1
  else rem_mul / quintill

/-- Model of `Perquintill(part) * x` for `x : u128` (`overflow_prune_mul`). -/
def perquintill_mul (part x : Nat) : Nat :=
  x / quintill * part + rational_mul_correction x part

/-- The amount a rotation credits for `pending` volume against an era total of
`total`, with per-era budget `rpe`:
`Perquintill::from_rational(pending, total) * rpe`. -/
def awardOf (rpe pending total : Nat) : Nat :=
  perquintill_mul (from_rational pending total) rpe

/-- The per-account `Reward` record (lib.rs lines 72-77). -/
structure Reward where
  confirmed : Nat
  pending_vol : Nat
  last_modify : Nat
deriving DecidableEq, Repr

/-- The `Default` value for `Reward`: all fields zero (`ValueQuery` default). -/
def defaultReward : Reward := ⟨0, 0, 0⟩

/-- Pallet configuration constants (`EraDuration`, `RewardsPerEra`). -/
structure Config where
  era_duration : Nat
  rewards_per_era : Nat

/-- Full storage state: the `Rewards` map (`none` = key absent; reads default
to `defaultReward`), the `Volumes` map (read through its `ValueQuery`
default 0), and the external native-token balances credited by claims. -/
structure State where
  rewards : Nat → Option Reward
  volumes : Nat → Nat
  balances : Nat → Nat

/-- Genesis: no reward records, no volumes, no balances. -/
def emptyState : State :=
  { rewards := fun _ => none, volumes := fun _ => 0, balances := fun _ => 0 }

/-- Storage read `Rewards::<T>::get(a)` through `ValueQuery`. -/
def getReward (s : State) (a : Nat) : Reward :=
  (s.rewards a).getD defaultReward

/-- Storage write of account `a`'s record (the commit of a `try_mutate`). -/
def setReward (s : State) (a : Nat) (r : Reward) : State :=
  { s with rewards := fun x => if x = a then some r else s.rewards x }

/-- The pallet's error enum (lib.rs lines 62-67). -/
inductive Err where
  | Overflow
  | DivideByZero
  | RewardNotFound
deriving DecidableEq, Repr

/-- Model of `rotate_reward` (lib.rs lines 146-179).  `Rewards::try_mutate` reads the
record (default if absent) and always writes it back on success.
Branches, in source order:
* same era (`at == r.last_modify`): `pending_vol` grows by `vol` via
  `checked_add`, the confirmed balance is returned untouched;
* era advanced, `pending_vol == 0`: nothing to convert, just re-stamp;
* era advanced, `pending_vol != 0`: `ensure!(total_vol > 0, DivideByZero)`,
  then `confirmed += Perquintill::from_rational(pending, total) * RewardsPerEra`
  via `checked_add`, new volume and era stamped. -/
def rotate_reward (cfg : Config) (s : State) (att vol acct : Nat) :
    Except Err (Nat × State) :=
  let r := getReward s acct
  if att = r.last_modify then
    match checked_add r.pending_vol vol with
    | none => .error .Overflow
    | some pv => .ok (r.confirmed, setReward s acct ⟨r.confirmed, pv, r.last_modify⟩)
  else if r.pending_vol = 0 then
    .ok (r.confirmed, setReward s acct ⟨r.confirmed, vol, att⟩)
  else if s.volumes r.last_modify = 0 then
    .error .DivideByZero
  else
    match checked_add r.confirmed
        (awardOf cfg.rewards_per_era r.pending_vol (s.volumes r.last_modify)) with
    | none => .error .Overflow
    | some c => .ok (c, setReward s acct ⟨c, vol, att⟩)

/-- Model of `claim_reward` (lib.rs lines 119-143).  Normalize the tick to its era
start, force a rotation with zero volume, return 0 at once if the rotated
confirmed balance is zero, otherwise `try_mutate_exists`: take the record
(`RewardNotFound` if absent), zero its confirmed amount, put it back only if
`pending_vol > 0` (otherwise the entry is removed), and credit the withdrawn
amount to the account's native-token balance. -/
def claim_reward (cfg : Config) (s : State) (who att0 : Nat) :
    Except Err (Nat × State) :=
  let att := att0 - att0 % cfg.era_duration
  match rotate_reward cfg s att 0 who with
  | .error e => .error e
  | .ok (confirmed, s1) =>
    if confirmed = 0 then .ok (0, s1)
    else
      match s1.rewards who with
      | none => .error .RewardNotFound
      | some reward =>
        let c := reward.confirmed
        let rewards' : Nat → Option Reward :=
          if 0 < reward.pending_vol then
            fun a => if a = who then some ⟨0, reward.pending_vol, reward.last_modify⟩
                     else s1.rewards a
          else
            fun a => if a = who then none else s1.rewards a
        let balances' : Nat → Nat :=
          if 0 < c then
            fun a => if a = who then s1.balances a + c else s1.balances a
          else s1.balances
        .ok (c, { s1 with rewards := rewards', balances := balances' })

/-- Model of `save_trading` (lib.rs lines 201-216): no-op on zero volume; otherwise
normalize the tick, grow the era's `Volumes` entry via `checked_add`, then
rotate the trader's record with the new volume. -/
def save_trading (cfg : Config) (s : State) (trader vol att0 : Nat) :
    Except Err State :=
  if vol = 0 then .ok s
  else
    let att := att0 - att0 % cfg.era_duration
    match checked_add (s.volumes att) vol with
    | none => .error .Overflow
    | some v =>
      let s1 : State := { s with volumes := fun e => if e = att then v else s.volumes e }
      match rotate_reward cfg s1 att vol trader with
      | .error e => .error e
      | .ok (_, s2) => .ok s2

/-- Model of `total_volume` (lib.rs lines 193-195). -/
def total_volume (cfg : Config) (s : State) (att : Nat) : Nat :=
  s.volumes (att - att % cfg.era_duration)

/-- Model of `acked_reward` (lib.rs lines 197-199). -/
def acked_reward (s : State) (who : Nat) : Nat :=
  (getReward s who).confirmed

/-- Iterated rotation: a sequence of consecutive `rotate_reward` calls with
the same tick `att` on the same account, one per listed volume, stopping at
the first error (each call is `#[transactional]`, so an error leaves the state
of the preceding successful calls). -/
def rotate_seq (cfg : Config) (att acct : Nat) : State → List Nat → Except Err State
  | s, [] => .ok s
  | s, v :: vs =>
    match rotate_reward cfg s att v acct with
    | .error e => .error e
    | .ok (_, s') => rotate_seq cfg att acct s' vs

/-! ## Arithmetic lemmas about the fixed-point computation -/

theorem quintill_pos : 0 < quintill := by
  simp [quintill]

theorem nat_div_add_div_le (a b d : Nat) : a / d + b / d ≤ (a + b) / d := by
  rcases Nat.eq_zero_or_pos d with h | h
  · subst h; simp
  · rw [Nat.le_div_iff_mul_le h, Nat.add_mul]
    exact Nat.add_le_add (Nat.div_mul_le_self a d) (Nat.div_mul_le_self b d)

theorem list_sum_div_le (l : List Nat) (d : Nat) : (l.map (· / d)).sum ≤ l.sum / d := by
  induction l with
  | nil => simp
  | cons x xs ih =>
    simp only [List.map_cons, List.sum_cons]
    exact le_trans (Nat.add_le_add_left ih _) (nat_div_add_div_le _ _ _)

theorem list_sum_map_add_one (l : List Nat) (f : Nat → Nat) :
    (l.map fun x => f x + 1).sum = (l.map f).sum + l.length := by
  induction l with
  | nil => simp
  | cons x xs ih =>
    simp only [List.map_cons, List.sum_cons, List.length_cons, ih]
    omega

/-- A `Perquintill` raw value never exceeds the accuracy `10^18`. -/
theorem from_rational_le (p q : Nat) : from_rational p q ≤ quintill := by
  simp only [from_rational]
  set q1 := max q 1
  set f := max (div_ceil q1 quintill) 1
  have h1 : min p q1 / f ≤ q1 / f := Nat.div_le_div_right (min_le_right p q1)
  rcases Nat.eq_zero_or_pos (q1 / f) with h | h
  · simp [h]
  · calc min p q1 / f * quintill / (q1 / f)
        ≤ q1 / f * quintill / (q1 / f) :=
          Nat.div_le_div_right (Nat.mul_le_mul_right quintill h1)
      _ = quintill := Nat.mul_div_cancel_left quintill h

/-- Rounding-down of each account's share: the raw `Perquintill` parts over a
set of accounts whose pending volumes sum to at most the era total sum to at
most the full accuracy `10^18`. -/
theorem sum_parts_le (q : Nat) (l : List Nat) (h : l.sum ≤ q) :
    (l.map fun p => from_rational p q).sum ≤ quintill := by
  have hexp : (fun p => from_rational p q) =
      fun p => min p (max q 1) / max (div_ceil (max q 1) quintill) 1 * quintill /
        (max q 1 / max (div_ceil (max q 1) quintill) 1) := rfl
  rw [hexp]
  set q1 := max q 1 with hq1
  set f := max (div_ceil q1 quintill) 1 with hf
  set qr := q1 / f with hqr
  have hA : (l.map fun p => min p q1 / f * quintill / qr).sum ≤
      (l.map fun p => min p q1 / f * quintill).sum / qr := by
    have := list_sum_div_le (l.map fun p => min p q1 / f * quintill) qr
    simpa [List.map_map, Function.comp] using this
  have hB : (l.map fun p => min p q1 / f * quintill).sum =
      (l.map fun p => min p q1 / f).sum * quintill :=
    List.sum_map_mul_right l (fun p => min p q1 / f) quintill
  have hC : (l.map fun p => min p q1 / f).sum ≤ qr := by
    have h1 : (l.map fun p => min p q1 / f).sum ≤ (l.map fun p => min p q1).sum / f := by
      have := list_sum_div_le (l.map fun p => min p q1) f
      simpa [List.map_map, Function.comp] using this
    have h2 : (l.map fun p => min p q1).sum ≤ l.sum := by
      have := List.sum_le_sum (l := l) (f := fun p => min p q1) (g := fun p => p)
        (fun i _ => min_le_left i q1)
      simpa using this
    have h3 : l.sum ≤ q1 := le_trans h (le_max_left q 1)
    exact le_trans h1 (Nat.div_le_div_right (le_trans h2 h3))
  have hD : (l.map fun p => min p q1 / f).sum * quintill / qr ≤ qr * quintill / qr :=
    Nat.div_le_div_right (Nat.mul_le_mul_right quintill hC)
  have hE : qr * quintill / qr ≤ quintill := by
    rcases Nat.eq_zero_or_pos qr with h0 | h0
    · simp [h0]
    · exact le_of_eq (Nat.mul_div_cancel_left quintill h0)
  calc (l.map fun p => min p q1 / f * quintill / qr).sum
      ≤ (l.map fun p => min p q1 / f * quintill).sum / qr := hA
    _ = (l.map fun p => min p q1 / f).sum * quintill / qr := by rw [hB]
    _ ≤ qr * quintill / qr := hD
    _ ≤ quintill := hE

/-- Nearest rounding overshoots the exact truncated product by at most one. -/
theorem award_le_div (R p q : Nat) :
    awardOf R p q ≤ R * from_rational p q / quintill + 1 := by
  simp only [awardOf, perquintill_mul]
  set part := from_rational p q with hpart
  have hcorr : rational_mul_correction R part ≤ R % quintill * part / quintill + 1 := by
    simp only [rational_mul_correction]
    split <;> omega
  have hsplit : R / quintill * part + R % quintill * part / quintill =
      R * part / quintill := by
    have hR : R * part = R % quintill * part + R / quintill * part * quintill := by
      conv_lhs => rw [← Nat.mod_add_div R quintill]
      ring
    rw [hR, Nat.add_mul_div_right _ _ quintill_pos]
    omega
  omega

/-- Sum bound for the awards actually computed: over any set of accounts whose
pending volumes sum to at most the era total, the awards sum to at most the
per-era budget plus one unit of rounding per account. -/
theorem award_sum_le (R q : Nat) (l : List Nat) (h : l.sum ≤ q) :
    (l.map fun p => awardOf R p q).sum ≤ R + l.length := by
  have h1 : (l.map fun p => awardOf R p q).sum ≤
      (l.map fun p => R * from_rational p q / quintill + 1).sum :=
    List.sum_le_sum (fun i _ => award_le_div R i q)
  rw [list_sum_map_add_one l (fun p => R * from_rational p q / quintill)] at h1
  have h2 : (l.map fun p => R * from_rational p q / quintill).sum ≤
      (l.map fun p => R * from_rational p q).sum / quintill := by
    have := list_sum_div_le (l.map fun p => R * from_rational p q) quintill
    simpa [List.map_map, Function.comp] using this
  have h3 : (l.map fun p => R * from_rational p q).sum =
      R * (l.map fun p => from_rational p q).sum :=
    List.sum_map_mul_left l (fun p => from_rational p q) R
  rw [h3] at h2
  have h4 : R * (l.map fun p => from_rational p q).sum / quintill ≤
      R * quintill / quintill :=
    Nat.div_le_div_right (Nat.mul_le_mul_left R (sum_parts_le q l h))
  have h5 : R * quintill / quintill = R := Nat.mul_div_cancel R quintill_pos
  omega

/-! ## Structural lemmas about the operations -/

theorem checked_add_eq_some {a b c : Nat} (h : checked_add a b = some c) :
    c = a + b ∧ a + b ≤ U128_MAX := by
  simp only [checked_add] at h
  split at h <;> simp_all

theorem checked_add_eq_none {a b : Nat} (h : checked_add a b = none) :
    U128_MAX < a + b := by
  simp only [checked_add] at h
  split at h <;> simp_all

theorem setReward_get_self (s : State) (a : Nat) (r : Reward) :
    (setReward s a r).rewards a = some r := by
  simp [setReward]

theorem setReward_get_other (s : State) (a b : Nat) (r : Reward) (h : b ≠ a) :
    (setReward s a r).rewards b = s.rewards b := by
  simp [setReward, h]

/-- Every successful rotation commits exactly one record write: the account's
record becomes `⟨c, pv, att⟩` where `c` is the returned confirmed balance (at
least the previous one) and `pv` is either the incoming volume or the checked
sum of the old pending volume and the incoming volume. -/
theorem rotate_ok_shape {cfg : Config} {s : State} {att vol acct c : Nat} {s' : State}
    (h : rotate_reward cfg s att vol acct = .ok (c, s')) :
    ∃ pv, s' = setReward s acct ⟨c, pv, att⟩ ∧ (pv ≤ U128_MAX ∨ pv = vol) ∧
      (getReward s acct).confirmed ≤ c := by
  simp only [rotate_reward] at h
  split at h
  case isTrue heq =>
    cases hca : checked_add (getReward s acct).pending_vol vol with
    | none => rw [hca] at h; cases h
    | some pv =>
      rw [hca] at h
      obtain ⟨h1, h2⟩ := checked_add_eq_some hca
      simp only [Except.ok.injEq, Prod.mk.injEq] at h
      obtain ⟨hc, hs⟩ := h
      exact ⟨pv, by rw [← hs, ← hc, heq], Or.inl (h1 ▸ h2), le_of_eq hc⟩
  case isFalse hne =>
    split at h
    case isTrue hpv =>
      simp only [Except.ok.injEq, Prod.mk.injEq] at h
      obtain ⟨hc, hs⟩ := h
      exact ⟨vol, by rw [← hs, ← hc], Or.inr rfl, le_of_eq hc⟩
    case isFalse hpv =>
      split at h
      case isTrue => cases h
      case isFalse htv =>
        cases hca : checked_add (getReward s acct).confirmed
            (awardOf cfg.rewards_per_era (getReward s acct).pending_vol
              (s.volumes (getReward s acct).last_modify)) with
        | none => rw [hca] at h; cases h
        | some c2 =>
          rw [hca] at h
          obtain ⟨h1, _⟩ := checked_add_eq_some hca
          simp only [Except.ok.injEq, Prod.mk.injEq] at h
          obtain ⟨hc, hs⟩ := h
          refine ⟨vol, by rw [← hs, ← hc], Or.inr rfl, ?_⟩
          rw [← hc, h1]
          exact Nat.le_add_right _ _

/-- The rotation `rotate_reward` only ever fails with `Overflow` or `DivideByZero`. -/
theorem rotate_error_cases {cfg : Config} {s : State} {att vol acct : Nat} {e : Err}
    (h : rotate_reward cfg s att vol acct = .error e) :
    e = .Overflow ∨ e = .DivideByZero := by
  simp only [rotate_reward] at h
  split at h
  · cases hca : checked_add (getReward s acct).pending_vol vol with
    | none => rw [hca] at h; exact Or.inl (Except.error.inj h).symm
    | some pv => rw [hca] at h; cases h
  · split at h
    · cases h
    · split at h
      · exact Or.inr (Except.error.inj h).symm
      · cases hca : checked_add (getReward s acct).confirmed
            (awardOf cfg.rewards_per_era (getReward s acct).pending_vol
              (s.volumes (getReward s acct).last_modify)) with
        | none => rw [hca] at h; exact Or.inl (Except.error.inj h).symm
        | some c2 => rw [hca] at h; cases h

/-- Same-era rotation, no overflow: pending volume grows by `vol`, everything
else (confirmed balance included) is untouched. -/
theorem rotate_same_era_ok {cfg : Config} {s : State} {att vol acct : Nat}
    (heq : att = (getReward s acct).last_modify)
    (hle : (getReward s acct).pending_vol + vol ≤ U128_MAX) :
    rotate_reward cfg s att vol acct =
      .ok ((getReward s acct).confirmed,
        setReward s acct ⟨(getReward s acct).confirmed,
          (getReward s acct).pending_vol + vol, (getReward s acct).last_modify⟩) := by
  simp only [rotate_reward, if_pos heq, checked_add, if_pos hle]

/-- Same-era rotation, overflowing pending volume: fails with `Overflow`. -/
theorem rotate_same_era_overflow {cfg : Config} {s : State} {att vol acct : Nat}
    (heq : att = (getReward s acct).last_modify)
    (hgt : U128_MAX < (getReward s acct).pending_vol + vol) :
    rotate_reward cfg s att vol acct = .error .Overflow := by
  simp only [rotate_reward, if_pos heq, checked_add]
  rw [if_neg (by omega : ¬ (getReward s acct).pending_vol + vol ≤ U128_MAX)]

/-- Era-advanced rotation with nonzero pending volume, nonzero era total and no
overflow: the confirmed balance grows by exactly the `Perquintill` award. -/
theorem rotate_new_era_award {cfg : Config} {s : State} {att vol acct : Nat}
    (hne : att ≠ (getReward s acct).last_modify)
    (hpv : (getReward s acct).pending_vol ≠ 0)
    (htv : s.volumes (getReward s acct).last_modify ≠ 0)
    (hof : (getReward s acct).confirmed +
        awardOf cfg.rewards_per_era (getReward s acct).pending_vol
          (s.volumes (getReward s acct).last_modify) ≤ U128_MAX) :
    rotate_reward cfg s att vol acct =
      .ok ((getReward s acct).confirmed +
          awardOf cfg.rewards_per_era (getReward s acct).pending_vol
            (s.volumes (getReward s acct).last_modify),
        setReward s acct ⟨(getReward s acct).confirmed +
          awardOf cfg.rewards_per_era (getReward s acct).pending_vol
            (s.volumes (getReward s acct).last_modify), vol, att⟩) := by
  simp only [rotate_reward, if_neg hne, if_neg hpv, if_neg htv, checked_add, if_pos hof]

/-- Era-advanced rotation with zero pending volume: no award is computed, the
record is just re-stamped with the incoming volume and the new era. -/
theorem rotate_new_era_skip {cfg : Config} {s : State} {att vol acct : Nat}
    (hne : att ≠ (getReward s acct).last_modify)
    (hpv : (getReward s acct).pending_vol = 0) :
    rotate_reward cfg s att vol acct =
      .ok ((getReward s acct).confirmed,
        setReward s acct ⟨(getReward s acct).confirmed, vol, att⟩) := by
  simp only [rotate_reward, if_neg hne, if_pos hpv]

/-- The rotation fails with `DivideByZero` exactly when the tick differs
from the record's era, the pending volume is nonzero and the stored total for
the record's era is zero. -/
theorem rotate_dbz_iff (cfg : Config) (s : State) (att vol acct : Nat) :
    rotate_reward cfg s att vol acct = .error .DivideByZero ↔
      (att ≠ (getReward s acct).last_modify ∧ (getReward s acct).pending_vol ≠ 0 ∧
        s.volumes (getReward s acct).last_modify = 0) := by
  constructor
  · intro h
    simp only [rotate_reward] at h
    split at h
    case isTrue heq =>
      cases hca : checked_add (getReward s acct).pending_vol vol with
      | none => rw [hca] at h; cases h
      | some pv => rw [hca] at h; cases h
    case isFalse hne =>
      split at h
      case isTrue => cases h
      case isFalse hpv =>
        split at h
        case isTrue htv => exact ⟨hne, hpv, htv⟩
        case isFalse htv =>
          cases hca : checked_add (getReward s acct).confirmed
              (awardOf cfg.rewards_per_era (getReward s acct).pending_vol
                (s.volumes (getReward s acct).last_modify)) with
          | none => rw [hca] at h; cases h
          | some c2 => rw [hca] at h; cases h
  · rintro ⟨hne, hpv, htv⟩
    simp only [rotate_reward, if_neg hne, if_neg hpv, if_pos htv]

theorem getReward_set_self (s : State) (a : Nat) (r : Reward) :
    getReward (setReward s a r) a = r := by
  simp [getReward, setReward]

theorem getReward_set_other (s : State) (a b : Nat) (r : Reward) (h : b ≠ a) :
    getReward (setReward s a r) b = getReward s b := by
  simp [getReward, setReward, h]

/-- Iterated same-era rotation: the account's confirmed balance, the volumes
map and the balances map never change; on success the pending volume is the
original plus the sum of all fed volumes, and any failure is an `Overflow`. -/
theorem rotate_seq_same_era {cfg : Config} {att acct : Nat} :
    ∀ (vols : List Nat) (s : State), (getReward s acct).last_modify = att →
    (∀ e, rotate_seq cfg att acct s vols = .error e → e = .Overflow) ∧
    (∀ s', rotate_seq cfg att acct s vols = .ok s' →
      (getReward s' acct).confirmed = (getReward s acct).confirmed ∧
      (getReward s' acct).pending_vol = (getReward s acct).pending_vol + vols.sum ∧
      (getReward s' acct).last_modify = att ∧
      s'.volumes = s.volumes ∧ s'.balances = s.balances) := by
  intro vols
  induction vols with
  | nil =>
    intro s hlm
    constructor
    · intro e h
      simp [rotate_seq] at h
    · intro s' h
      simp only [rotate_seq, Except.ok.injEq] at h
      subst h
      simp [hlm]
  | cons v vs ih =>
    intro s hlm
    rcases le_or_lt ((getReward s acct).pending_vol + v) U128_MAX with hle | hgt
    · have hrot := @rotate_same_era_ok cfg s att v acct hlm.symm hle
      have hstep : rotate_seq cfg att acct s (v :: vs) =
          rotate_seq cfg att acct
            (setReward s acct ⟨(getReward s acct).confirmed,
              (getReward s acct).pending_vol + v, (getReward s acct).last_modify⟩) vs := by
        simp only [rotate_seq, hrot]
      have hlm' : (getReward (setReward s acct ⟨(getReward s acct).confirmed,
          (getReward s acct).pending_vol + v, (getReward s acct).last_modify⟩) acct).last_modify
          = att := by
        rw [getReward_set_self]; exact hlm
      obtain ⟨ih1, ih2⟩ := ih _ hlm'
      refine ⟨fun e h => ih1 e (by rw [← hstep]; exact h), fun s' h => ?_⟩
      obtain ⟨h1, h2, h3, h4, h5⟩ := ih2 s' (by rw [← hstep]; exact h)
      rw [getReward_set_self] at h1 h2
      refine ⟨h1, ?_, h3, h4, h5⟩
      simp only [h2, List.sum_cons]
      omega
    · have hrot := @rotate_same_era_overflow cfg s att v acct hlm.symm hgt
      have hstep : rotate_seq cfg att acct s (v :: vs) = .error .Overflow := by
        simp only [rotate_seq, hrot]
      rw [hstep]
      exact ⟨fun e h => (Except.error.inj h).symm, fun s' h => by cases h⟩

/-- Full case analysis of a successful claim.  The forced zero-volume rotation
returns `c0` and stamps the record `⟨c0, pv, era-start⟩`; then either `c0 = 0`
(fast path: the claim returns 0 and commits just the rotation), or the claim
returns `c0`, zeroes the confirmed amount (keeping the record exactly when
`pv > 0`, deleting it when `pv = 0`) and credits `c0` to the account. -/
theorem claim_ok_cases {cfg : Config} {s : State} {who att0 c : Nat} {s1 : State}
    (h : claim_reward cfg s who att0 = .ok (c, s1)) :
    ∃ c0 pv,
      rotate_reward cfg s (att0 - att0 % cfg.era_duration) 0 who =
        .ok (c0, setReward s who ⟨c0, pv, att0 - att0 % cfg.era_duration⟩) ∧
      pv ≤ U128_MAX ∧ (getReward s who).confirmed ≤ c0 ∧
      s1.volumes = s.volumes ∧
      (∀ b, b ≠ who → s1.rewards b = s.rewards b) ∧
      ((c0 = 0 ∧ c = 0 ∧
          s1.rewards who = some ⟨0, pv, att0 - att0 % cfg.era_duration⟩ ∧
          s1.balances = s.balances) ∨
       (c0 ≠ 0 ∧ c = c0 ∧ 0 < pv ∧
          s1.rewards who = some ⟨0, pv, att0 - att0 % cfg.era_duration⟩ ∧
          s1.balances = fun a => if a = who then s.balances a + c0 else s.balances a) ∨
       (c0 ≠ 0 ∧ c = c0 ∧ pv = 0 ∧ s1.rewards who = none ∧
          s1.balances = fun a => if a = who then s.balances a + c0 else s.balances a)) := by
  simp only [claim_reward] at h
  split at h
  case h_1 e heq => cases h
  case h_2 c0 s0 heq =>
    obtain ⟨pv, hs0, hpvle, hcmono⟩ := rotate_ok_shape heq
    have hpv' : pv ≤ U128_MAX := by
      rcases hpvle with h1 | h1
      · exact h1
      · subst h1; exact Nat.zero_le _
    subst hs0
    split at h
    case isTrue hc0 =>
      simp only [Except.ok.injEq, Prod.mk.injEq] at h
      obtain ⟨hc, hs⟩ := h
      subst hc0
      subst hs
      exact ⟨0, pv, heq, hpv', hcmono, rfl, fun b hb => setReward_get_other _ _ _ _ hb,
        Or.inl ⟨rfl, hc.symm, by rw [setReward_get_self], rfl⟩⟩
    case isFalse hc0 =>
      split at h
      case h_1 habs => rw [setReward_get_self] at habs; cases habs
      case h_2 reward hrw =>
        rw [setReward_get_self] at hrw
        obtain rfl : reward = ⟨c0, pv, att0 - att0 % cfg.era_duration⟩ :=
          (Option.some.inj hrw).symm
        simp only [Except.ok.injEq, Prod.mk.injEq] at h
        obtain ⟨hc, hs⟩ := h
        have hcpos : (0 : Nat) < c0 := Nat.pos_of_ne_zero hc0
        by_cases hpv0 : (0 : Nat) < pv
        · rw [if_pos hpv0, if_pos hcpos] at hs
          subst hs
          refine ⟨c0, pv, heq, hpv', hcmono, rfl, fun b hb => ?_,
            Or.inr (Or.inl ⟨hc0, hc.symm, hpv0, ?_, ?_⟩)⟩
          · simp [setReward, hb]
          · simp
          · rfl
        · rw [if_neg hpv0, if_pos hcpos] at hs
          subst hs
          refine ⟨c0, pv, heq, hpv', hcmono, rfl, fun b hb => ?_,
            Or.inr (Or.inr ⟨hc0, hc.symm, by omega, ?_, ?_⟩)⟩
          · simp [setReward, hb]
          · simp
          · rfl

/-- A zero-volume rotation of an account whose record is absent (read as the
all-zero default) succeeds and returns a zero confirmed balance. -/
theorem rotate_zero_default {cfg : Config} {s : State} {att acct : Nat}
    (hg : getReward s acct = defaultReward) :
    ∃ pv, rotate_reward cfg s att 0 acct = .ok (0, setReward s acct ⟨0, pv, att⟩) := by
  by_cases hz : att = 0
  · subst hz
    have h := @rotate_same_era_ok cfg s 0 0 acct
      (by rw [hg]; rfl) (by rw [hg]; exact Nat.zero_le _)
    rw [hg] at h
    exact ⟨0 + 0, h⟩
  · have h := @rotate_new_era_skip cfg s att 0 acct
      (by rw [hg]; exact hz) (by rw [hg]; rfl)
    rw [hg] at h
    exact ⟨0, h⟩

/-- If the forced zero-volume rotation returns the confirmed balance `0`, the
claim takes the fast path and commits exactly the rotation's state. -/
theorem claim_fast_path {cfg : Config} {s1 : State} {who att0 : Nat} {t : State}
    (hrot : rotate_reward cfg s1 (att0 - att0 % cfg.era_duration) 0 who = .ok (0, t)) :
    claim_reward cfg s1 who att0 = .ok (0, t) := by
  simp [claim_reward, hrot]

/-! ## The claims -/

/-- C1 (counterexample): with `rewards_per_era = 2`, three accounts each
record volume 1 in era 0 (era total 3); at tick 100 each account's rotation
computes an award of 1 (each starts from confirmed 0, so the returned
confirmed balance is the award).  But `floor(p · rewards_per_era) =
floor(1/3 · 2) = 1 * 2 / 3 = 0`, so the per-account award is *not* the floor,
and the three awards sum to 3 > 2 = `rewards_per_era`: truncation does not cap
the era payout, because `Perquintill * balance` rounds to nearest rather than
down.  This refutes the claim at this concrete input. -/
theorem C1_counterexample :
    (((save_trading ⟨100, 2⟩ emptyState 1 1 5).bind fun s =>
      (save_trading ⟨100, 2⟩ s 2 1 6).bind fun s =>
      (save_trading ⟨100, 2⟩ s 3 1 7).bind fun s =>
      (rotate_reward ⟨100, 2⟩ s 100 0 1).bind fun p1 =>
      (rotate_reward ⟨100, 2⟩ s 100 0 2).bind fun p2 =>
      (rotate_reward ⟨100, 2⟩ s 100 0 3).map fun p3 =>
        (p1.1, p2.1, p3.1)).toOption = some (1, 1, 1)) ∧
    1 * 2 / 3 = 0 ∧ ¬ (1 + 1 + 1 ≤ 2) := by
  refine ⟨?_, by decide, by decide⟩
  decide

/-- C1 (amended): the award computed at rotation for each account equals the
`Perquintill` fixed-point value `awardOf rewards_per_era pending era_total`
(the ratio truncated to 10^-18 precision, the final multiplication rounded to
nearest with ties down) — not `floor(p · rewards_per_era)`; and the sum of the
per-account awards for an era is bounded by `rewards_per_era` plus one unit of
rounding per account (it can exceed `rewards_per_era`, but never by more than
the number of participating accounts). -/
theorem C1_award_formula_and_sum (cfg : Config) (s : State) (att vol acct : Nat)
    (hne : att ≠ (getReward s acct).last_modify)
    (hpv : (getReward s acct).pending_vol ≠ 0)
    (htv : s.volumes (getReward s acct).last_modify ≠ 0)
    (hof : (getReward s acct).confirmed +
      awardOf cfg.rewards_per_era (getReward s acct).pending_vol
        (s.volumes (getReward s acct).last_modify) ≤ U128_MAX) :
    (∃ s', rotate_reward cfg s att vol acct =
      .ok ((getReward s acct).confirmed +
        awardOf cfg.rewards_per_era (getReward s acct).pending_vol
          (s.volumes (getReward s acct).last_modify), s')) ∧
    (∀ (R total : Nat) (l : List Nat), l.sum ≤ total →
      (l.map fun p => awardOf R p total).sum ≤ R + l.length) :=
  ⟨⟨_, rotate_new_era_award hne hpv htv hof⟩,
    fun R total l h => award_sum_le R total l h⟩

theorem C1_award_formula_and_sum_witness :
    ((rotate_reward ⟨100, 2⟩ { emptyState with
      rewards := fun a => if a = 1 then some ⟨0, 1, 0⟩ else none,
      volumes := fun e => if e = 0 then 3 else 0 } 100 0 1).toOption.map Prod.fst =
        some 1) ∧
    ([1, 1, 1].map fun p => awardOf 2 p 3).sum ≤ 2 + [1, 1, 1].length := by
  have h := C1_award_formula_and_sum ⟨100, 2⟩ { emptyState with
      rewards := fun a => if a = 1 then some ⟨0, 1, 0⟩ else none,
      volumes := fun e => if e = 0 then 3 else 0 } 100 0 1
    (by decide) (by decide) (by decide) (by decide)
  obtain ⟨⟨s', hs⟩, hsum⟩ := h
  refine ⟨?_, hsum 2 3 [1, 1, 1] (by decide)⟩
  have hred : ∀ (v : Nat) (t : State),
      (Except.ok (v, t) : Except Err (Nat × State)).toOption.map Prod.fst = some v :=
    fun v t => rfl
  rw [hs, hred]
  decide

/-- C2: with `era_duration = 100` and `rewards_per_era = 1000000`, account 1
records volume 30 and account 2 records volume 70 inside era `[0, 100)`;
both start with confirmed balance 0, and the rotations at era-start 100 set
account 1's confirmed balance to exactly 300000 and account 2's to exactly
700000 (the exact 30% and 70% pro-rata shares). -/
theorem C2_proportionality_example :
    (((save_trading ⟨100, 1000000⟩ emptyState 1 30 5).bind fun s =>
      (save_trading ⟨100, 1000000⟩ s 2 70 50).bind fun s =>
      (rotate_reward ⟨100, 1000000⟩ s 100 0 1).bind fun p1 =>
      (rotate_reward ⟨100, 1000000⟩ p1.2 100 0 2).map fun p2 =>
        (acked_reward s 1, acked_reward s 2,
         acked_reward p1.2 1, acked_reward p2.2 1, acked_reward p2.2 2)).toOption =
      some (0, 0, 300000, 300000, 700000)) := by
  decide

/-- C6: for every account and any number of consecutive `rotate_reward` calls
whose tick equals the record's `last_modify` era (no era advance), each call
adds the incoming volume to `pending_vol` via checked addition (failing with
`Overflow` when the sum exceeds `u128::MAX`) and leaves the confirmed balance
unchanged; the confirmed balance is never recomputed by such calls. -/
theorem C6_same_era_rotation (cfg : Config) (s : State) (att acct : Nat) (vols : List Nat)
    (hlm : (getReward s acct).last_modify = att) :
    (∀ vol c s', rotate_reward cfg s att vol acct = .ok (c, s') →
      c = (getReward s acct).confirmed ∧
      getReward s' acct = ⟨(getReward s acct).confirmed,
        (getReward s acct).pending_vol + vol, att⟩ ∧
      (getReward s acct).pending_vol + vol ≤ U128_MAX ∧
      s'.volumes = s.volumes ∧ s'.balances = s.balances) ∧
    (∀ vol, U128_MAX < (getReward s acct).pending_vol + vol →
      rotate_reward cfg s att vol acct = .error .Overflow) ∧
    (∀ e, rotate_seq cfg att acct s vols = .error e → e = .Overflow) ∧
    (∀ s', rotate_seq cfg att acct s vols = .ok s' →
      (getReward s' acct).confirmed = (getReward s acct).confirmed ∧
      (getReward s' acct).pending_vol = (getReward s acct).pending_vol + vols.sum) := by
  obtain ⟨hseq1, hseq2⟩ := @rotate_seq_same_era cfg att acct vols s hlm
  refine ⟨?_, fun vol hgt => rotate_same_era_overflow hlm.symm hgt, hseq1,
    fun s' h => ⟨(hseq2 s' h).1, (hseq2 s' h).2.1⟩⟩
  intro vol c s' h
  rcases le_or_lt ((getReward s acct).pending_vol + vol) U128_MAX with hle | hgt
  · rw [rotate_same_era_ok hlm.symm hle] at h
    simp only [Except.ok.injEq, Prod.mk.injEq] at h
    obtain ⟨hc, hs⟩ := h
    subst hs
    refine ⟨hc.symm, ?_, hle, rfl, rfl⟩
    rw [getReward_set_self, hlm]
  · rw [rotate_same_era_overflow hlm.symm hgt] at h
    cases h

theorem C6_witness :
    (getReward { emptyState with
      rewards := fun a => if a = 1 then some ⟨7, 3, 100⟩ else none } 1).last_modify = 100 ∧
    rotate_reward ⟨100, 10⟩ { emptyState with
      rewards := fun a => if a = 1 then some ⟨7, 3, 100⟩ else none } 100 (2 ^ 128) 1 =
        .error .Overflow :=
  ⟨by decide,
    (C6_same_era_rotation ⟨100, 10⟩ _ 100 1 [] (by decide)).2.1 (2 ^ 128) (by decide)⟩

/-- C7: provided the tick does not lag behind the record's era
(`last_modify ≤ att`, the reachable situation under monotone time), rotation
fails with `DivideByZero` if and only if the era has advanced past the
record's `last_modify`, the record's `pending_vol` is nonzero, and the stored
total volume for era `last_modify` is zero; in all other cases rotation does
not raise `DivideByZero`. -/
theorem C7_rotate_divide_by_zero (cfg : Config) (s : State) (att vol acct : Nat)
    (hmono : (getReward s acct).last_modify ≤ att) :
    rotate_reward cfg s att vol acct = .error .DivideByZero ↔
      ((getReward s acct).last_modify < att ∧ (getReward s acct).pending_vol ≠ 0 ∧
        s.volumes (getReward s acct).last_modify = 0) := by
  rw [rotate_dbz_iff]
  constructor
  · rintro ⟨hne, h2, h3⟩
    exact ⟨lt_of_le_of_ne hmono (fun h => hne h.symm), h2, h3⟩
  · rintro ⟨hlt, h2, h3⟩
    exact ⟨ne_of_gt hlt, h2, h3⟩

theorem C7_witness :
    (getReward { emptyState with
      rewards := fun a => if a = 1 then some ⟨0, 1, 0⟩ else none } 1).last_modify ≤ 100 ∧
    rotate_reward ⟨100, 1000⟩ { emptyState with
      rewards := fun a => if a = 1 then some ⟨0, 1, 0⟩ else none } 100 0 1 =
        .error .DivideByZero :=
  ⟨by decide,
    (C7_rotate_divide_by_zero ⟨100, 1000⟩ _ 100 0 1 (by decide)).mpr
      ⟨by decide, by decide, by decide⟩⟩

/-- C8: for an account whose record is in the same open era as the
(normalized) tick, calling `save_trading` with a volume such that
`pending_vol + vol` exceeds `u128::MAX` fails with `Overflow`; since
`save_trading` is `#[transactional]`, the error carries no state in this
embedding, i.e. every storage write (including the already-applied era-total
accumulation) is rolled back and the caller keeps the pre-call state. -/
theorem C8_record_volume_overflow (cfg : Config) (s : State) (trader vol att0 : Nat)
    (hera : (getReward s trader).last_modify = att0 - att0 % cfg.era_duration)
    (hpb : (getReward s trader).pending_vol ≤ U128_MAX)
    (hof : U128_MAX < (getReward s trader).pending_vol + vol) :
    save_trading cfg s trader vol att0 = .error .Overflow := by
  have hvol : vol ≠ 0 := by omega
  simp only [save_trading, if_neg hvol]
  cases hca : checked_add (s.volumes (att0 - att0 % cfg.era_duration)) vol with
  | none => rfl
  | some v =>
    have hlm1 : att0 - att0 % cfg.era_duration =
        (getReward { s with volumes := fun e =>
          if e = att0 - att0 % cfg.era_duration then v else s.volumes e } trader).last_modify :=
      hera.symm
    simp only [rotate_same_era_overflow hlm1 hof]

theorem C8_witness :
    (getReward { emptyState with
      rewards := fun a => if a = 1 then some ⟨0, U128_MAX, 0⟩ else none } 1).last_modify =
        0 - 0 % 100 ∧
    U128_MAX < U128_MAX + 1 ∧
    save_trading ⟨100, 5⟩ { emptyState with
      rewards := fun a => if a = 1 then some ⟨0, U128_MAX, 0⟩ else none } 1 1 0 =
        .error .Overflow :=
  ⟨by decide, by decide,
    C8_record_volume_overflow ⟨100, 5⟩ _ 1 1 0 (by decide) (by decide) (by decide)⟩

/-- C9: the claim operation never fails with `RewardNotFound`: every error a
claim can return is an `Overflow` or a `DivideByZero` propagated from the
forced rotation — the defensive `ensure!(r.is_some(), RewardNotFound)` branch
is unreachable because a successful rotation always materializes the
account's record in storage. -/
theorem C9_claim_never_reward_not_found (cfg : Config) (s : State) (who att0 : Nat)
    (e : Err) (h : claim_reward cfg s who att0 = .error e) :
    e = .Overflow ∨ e = .DivideByZero := by
  simp only [claim_reward] at h
  split at h
  case h_1 e0 heq =>
    obtain rfl : e0 = e := Except.error.inj h
    exact rotate_error_cases heq
  case h_2 c0 s0 heq =>
    split at h
    · cases h
    · obtain ⟨pv, hs0, _, _⟩ := rotate_ok_shape heq
      split at h
      case h_1 habs =>
        rw [hs0, setReward_get_self] at habs
        cases habs
      case h_2 reward hrw =>
        cases h

theorem C9_witness :
    claim_reward ⟨100, 1000⟩ { emptyState with
      rewards := fun a => if a = 1 then some ⟨0, 1, 0⟩ else none } 1 150 =
        .error .DivideByZero ∧
    (Err.DivideByZero = Err.Overflow ∨ Err.DivideByZero = Err.DivideByZero) :=
  ⟨rfl, C9_claim_never_reward_not_found ⟨100, 1000⟩ { emptyState with
      rewards := fun a => if a = 1 then some ⟨0, 1, 0⟩ else none } 1 150 .DivideByZero rfl⟩

/-- C3 (counterexample): account 1 trades volume 5 at tick 10, creating its
`Reward` record (`⟨0, 5, 0⟩`); the subsequent claim at tick 100 succeeds,
withdraws 1000 — and *deletes* the record from the ledger (the `take()` is not
followed by a `replace` because the pending volume is zero after rotation),
refuting "once created it is never deleted by any operation (including
claim)". -/
theorem C3_counterexample :
    ((save_trading ⟨100, 1000⟩ emptyState 1 5 10).toOption.map fun s =>
      s.rewards 1) = some (some ⟨0, 5, 0⟩) ∧
    (((save_trading ⟨100, 1000⟩ emptyState 1 5 10).bind fun s =>
      claim_reward ⟨100, 1000⟩ s 1 100).toOption.map fun p =>
        (p.1, p.2.rewards 1)) = some (1000, none) := by
  refine ⟨by decide, ?_⟩
  decide

/-- C3 (amended): a `Reward` record is never deleted by `rotate_reward` (a
successful rotation always (re)writes the account's own record and touches no
other record); after a successful claim the account's record either survives
with its confirmed amount reset to zero, or is removed from storage — and
removal happens only when the claim withdrew a nonzero amount and the rotated
record's pending volume was zero.  Records of other accounts always
persist unchanged. -/
theorem C3_record_lifecycle (cfg : Config) (s : State) :
    (∀ att vol acct c s', rotate_reward cfg s att vol acct = .ok (c, s') →
      (s'.rewards acct).isSome ∧ ∀ b, b ≠ acct → s'.rewards b = s.rewards b) ∧
    (∀ who att0 c s', claim_reward cfg s who att0 = .ok (c, s') →
      (∀ b, b ≠ who → s'.rewards b = s.rewards b) ∧
      (∀ r', s'.rewards who = some r' → r'.confirmed = 0) ∧
      (s'.rewards who = none → 0 < c ∧
        ∃ c0 s0, rotate_reward cfg s (att0 - att0 % cfg.era_duration) 0 who =
            .ok (c0, s0) ∧ (getReward s0 who).pending_vol = 0)) := by
  constructor
  · intro att vol acct c s' h
    obtain ⟨pv, hs, _, _⟩ := rotate_ok_shape h
    subst hs
    exact ⟨by simp [setReward_get_self], fun b hb => setReward_get_other _ _ _ _ hb⟩
  · intro who att0 c s' h
    obtain ⟨c0, pv, hrot, hpvle, hmono, hvol, hframe, hcase⟩ := claim_ok_cases h
    refine ⟨hframe, ?_, ?_⟩
    · intro r' hr'
      rcases hcase with ⟨_, _, hrw, _⟩ | ⟨_, _, _, hrw, _⟩ | ⟨_, _, _, hrw, _⟩
      · rw [hrw] at hr'
        obtain rfl := Option.some.inj hr'
        rfl
      · rw [hrw] at hr'
        obtain rfl := Option.some.inj hr'
        rfl
      · rw [hrw] at hr'
        cases hr'
    · intro hnone
      rcases hcase with ⟨_, _, hrw, _⟩ | ⟨_, _, _, hrw, _⟩ | ⟨hc0, hceq, hpv0, hrw, _⟩
      · rw [hrw] at hnone; cases hnone
      · rw [hrw] at hnone; cases hnone
      · refine ⟨by omega, c0, _, hrot, ?_⟩
        rw [getReward_set_self]
        exact hpv0

theorem C3_witness :
    ((setReward emptyState 1 ⟨0, 0, 100⟩).rewards 1).isSome ∧
    (setReward emptyState 1 ⟨0, 0, 100⟩).rewards 2 = emptyState.rewards 2 :=
  have h := (C3_record_lifecycle ⟨100, 10⟩ emptyState).1 100 0 1 0
    (setReward emptyState 1 ⟨0, 0, 100⟩) rfl
  ⟨h.1, h.2 2 (by decide)⟩

/-- C4 (counterexample): a claim on a fresh account at tick 100 returns zero —
yet it does change the ledger: the account's record, absent before, now
exists with `last_modify = 100` (the forced rotation's write is committed even
on the zero fast path), refuting "leaves the entire ledger state
unchanged". -/
theorem C4_counterexample :
    emptyState.rewards 1 = none ∧
    ((claim_reward ⟨100, 1000⟩ emptyState 1 100).toOption.map fun p =>
      (p.1, p.2.rewards 1)) = some (0, some ⟨0, 0, 100⟩) := by
  refine ⟨rfl, ?_⟩
  decide

/-- C4 (amended): a claim that returns zero issues no credit and changes no
era volume total, no external balance, no other account's record, and no
confirmed balance (the account's confirmed balance is zero both before and
after); it is however not a complete no-op — the forced rotation may still
rewrite the account's own `pending_vol`/`last_modify` and materialize its
record. -/
theorem C4_zero_claim (cfg : Config) (s : State) (who att0 c : Nat) (s' : State)
    (h : claim_reward cfg s who att0 = .ok (c, s')) (hc : c = 0) :
    s'.volumes = s.volumes ∧ s'.balances = s.balances ∧
    (∀ b, b ≠ who → s'.rewards b = s.rewards b) ∧
    acked_reward s who = 0 ∧ acked_reward s' who = 0 := by
  subst hc
  obtain ⟨c0, pv, hrot, hpvle, hmono, hvol, hframe, hcase⟩ := claim_ok_cases h
  rcases hcase with ⟨hc00, _, hrw, hbal⟩ | ⟨hc0, hceq, _⟩ | ⟨hc0, hceq, _⟩
  · subst hc00
    refine ⟨hvol, hbal, hframe, ?_, ?_⟩
    · simp only [acked_reward]
      omega
    · simp [acked_reward, getReward, hrw]
  · exact absurd hceq.symm hc0
  · exact absurd hceq.symm hc0

theorem C4_witness :
    (setReward emptyState 1 ⟨0, 0, 100⟩).volumes = emptyState.volumes ∧
    (setReward emptyState 1 ⟨0, 0, 100⟩).balances = emptyState.balances ∧
    acked_reward emptyState 1 = 0 ∧
    acked_reward (setReward emptyState 1 ⟨0, 0, 100⟩) 1 = 0 :=
  have h := C4_zero_claim ⟨100, 1000⟩ emptyState 1 100 0
    (setReward emptyState 1 ⟨0, 0, 100⟩) rfl rfl
  ⟨h.1, h.2.1, h.2.2.2.1, h.2.2.2.2⟩

/-- C5: after a successful claim that withdrew a nonzero amount, an
immediately following second claim at the same tick returns zero and issues
no credit instruction — the external balances are exactly those left by the
first claim. -/
theorem C5_no_double_claim (cfg : Config) (s : State) (who att0 c : Nat) (s1 : State)
    (h : claim_reward cfg s who att0 = .ok (c, s1)) (hc : c ≠ 0) :
    ∃ s2, claim_reward cfg s1 who att0 = .ok (0, s2) ∧ s2.balances = s1.balances := by
  obtain ⟨c0, pv, hrot, hpvle, hmono, hvol, hframe, hcase⟩ := claim_ok_cases h
  rcases hcase with ⟨_, hceq, _⟩ | ⟨hc0, hceq, hpv0, hrw, hbal⟩ | ⟨hc0, hceq, hpv0, hrw, hbal⟩
  · exact absurd hceq hc
  · have hg : getReward s1 who = ⟨0, pv, att0 - att0 % cfg.era_duration⟩ := by
      simp [getReward, hrw]
    have hrot2 : rotate_reward cfg s1 (att0 - att0 % cfg.era_duration) 0 who =
        .ok (0, setReward s1 who ⟨0, pv + 0, att0 - att0 % cfg.era_duration⟩) := by
      have h2 := @rotate_same_era_ok cfg s1 (att0 - att0 % cfg.era_duration) 0 who
        (by rw [hg]) (by rw [hg]; show pv + 0 ≤ U128_MAX; omega)
      rw [hg] at h2
      exact h2
    exact ⟨_, claim_fast_path hrot2, rfl⟩
  · have hg : getReward s1 who = defaultReward := by
      simp [getReward, hrw, defaultReward]
    obtain ⟨pv2, hrot2⟩ := @rotate_zero_default cfg s1 (att0 - att0 % cfg.era_duration) who hg
    exact ⟨_, claim_fast_path hrot2, rfl⟩

theorem C5_witness :
    ((claim_reward ⟨100, 1000⟩
      { rewards := fun a => if a = 1 then some ⟨0, 5, 0⟩ else none,
        volumes := fun e => if e = 0 then 5 else 0,
        balances := fun _ => 0 } 1 100).toOption.map Prod.fst = some 1000) ∧
    (((claim_reward ⟨100, 1000⟩
      { rewards := fun a => if a = 1 then some ⟨0, 5, 0⟩ else none,
        volumes := fun e => if e = 0 then 5 else 0,
        balances := fun _ => 0 } 1 100).bind fun p =>
      claim_reward ⟨100, 1000⟩ p.2 1 100).toOption.map Prod.fst = some 0) := by
  have hc1 : (claim_reward ⟨100, 1000⟩
      { rewards := fun a => if a = 1 then some ⟨0, 5, 0⟩ else none,
        volumes := fun e => if e = 0 then 5 else 0,
        balances := fun _ => 0 } 1 100).toOption.map Prod.fst = some 1000 := by decide
  refine ⟨hc1, ?_⟩
  cases hfst : claim_reward ⟨100, 1000⟩
      { rewards := fun a => if a = 1 then some ⟨0, 5, 0⟩ else none,
        volumes := fun e => if e = 0 then 5 else 0,
        balances := fun _ => 0 } 1 100 with
  | error e =>
    rw [hfst] at hc1
    cases hc1
  | ok p =>
    have hcp : p.1 = 1000 := by
      rw [hfst] at hc1
      exact Option.some.inj hc1
    obtain ⟨s2, h2, _⟩ := C5_no_double_claim ⟨100, 1000⟩
      { rewards := fun a => if a = 1 then some ⟨0, 5, 0⟩ else none,
        volumes := fun e => if e = 0 then 5 else 0,
        balances := fun _ => 0 } 1 100 p.1 p.2 hfst (by omega)
    show (claim_reward ⟨100, 1000⟩ p.2 1 100).toOption.map Prod.fst = some 0
    rw [h2]
    rfl

/-- C10 (counterexample): account 1 trades volume 7 at tick 3 and claims at
tick 150 (normalized era-start 100); the claim succeeds and withdraws 50,
but afterwards *no* record exists for the account at all — so it is false
that after every successful claim the stored record exists with `last_modify`
equal to the normalized tick. -/
theorem C10_counterexample :
    (((save_trading ⟨100, 50⟩ emptyState 1 7 3).bind fun s =>
      claim_reward ⟨100, 50⟩ s 1 150).toOption.map fun p =>
        (p.1, p.2.rewards 1)) = some (50, none) := by
  decide

/-- C10 (amended): after every successful `rotate_reward at vol acct` the
account's stored record exists and its `last_modify` equals `at`; hence the
same holds after every successful `save_trading` with nonzero volume (for the
era-normalized tick).  After a successful claim the record, *if it still
exists*, carries the normalized tick — but it may instead have been removed
(when the rotated pending volume was zero); and a zero-volume `save_trading`
is a no-op that touches no record at all. -/
theorem C10_last_modify (cfg : Config) (s : State) :
    (∀ att vol acct c s', rotate_reward cfg s att vol acct = .ok (c, s') →
      ∃ r', s'.rewards acct = some r' ∧ r'.last_modify = att) ∧
    (∀ trader vol att0 s', vol ≠ 0 → save_trading cfg s trader vol att0 = .ok s' →
      ∃ r', s'.rewards trader = some r' ∧
        r'.last_modify = att0 - att0 % cfg.era_duration) ∧
    (∀ who att0 c s', claim_reward cfg s who att0 = .ok (c, s') →
      ∀ r', s'.rewards who = some r' →
        r'.last_modify = att0 - att0 % cfg.era_duration) ∧
    (∀ trader att0, save_trading cfg s trader 0 att0 = .ok s) := by
  refine ⟨?_, ?_, ?_, fun trader att0 => rfl⟩
  · intro att vol acct c s' h
    obtain ⟨pv, hs, _, _⟩ := rotate_ok_shape h
    subst hs
    exact ⟨⟨c, pv, att⟩, setReward_get_self _ _ _, rfl⟩
  · intro trader vol att0 s' hvol h
    simp only [save_trading, if_neg hvol] at h
    split at h
    · cases h
    · split at h
      · cases h
      case h_2 c0 s2 heq =>
        obtain rfl : s2 = s' := Except.ok.inj h
        obtain ⟨pv, hs, _, _⟩ := rotate_ok_shape heq
        subst hs
        exact ⟨⟨c0, pv, att0 - att0 % cfg.era_duration⟩, setReward_get_self _ _ _, rfl⟩
  · intro who att0 c s' h r' hr'
    obtain ⟨c0, pv, hrot, _, _, _, _, hcase⟩ := claim_ok_cases h
    rcases hcase with ⟨_, _, hrw, _⟩ | ⟨_, _, _, hrw, _⟩ | ⟨_, _, _, hrw, _⟩
    · rw [hrw] at hr'
      obtain rfl := Option.some.inj hr'
      rfl
    · rw [hrw] at hr'
      obtain rfl := Option.some.inj hr'
      rfl
    · rw [hrw] at hr'
      cases hr'

theorem C10_witness :
    (setReward { emptyState with
        volumes := fun e => if e = 0 then 5 else emptyState.volumes e } 1 ⟨0, 5, 0⟩).rewards 1 =
      some ⟨0, 5, 0⟩ ∧
    (0 : Nat) = 42 - 42 % 100 := by
  have h := (C10_last_modify ⟨100, 10⟩ emptyState).2.1 1 5 42
    (setReward { emptyState with
      volumes := fun e => if e = 0 then 5 else emptyState.volumes e } 1 ⟨0, 5, 0⟩)
    (by decide) rfl
  obtain ⟨r', hr, hlm⟩ := h
  have hsome : (setReward { emptyState with
      volumes := fun e => if e = 0 then 5 else emptyState.volumes e } 1 ⟨0, 5, 0⟩).rewards 1 =
      some ⟨0, 5, 0⟩ := by decide
  have hre : r' = ⟨0, 5, 0⟩ := by
    have h2 := hsome
    rw [hr] at h2
    exact Option.some.inj h2
  refine ⟨hsome, ?_⟩
  rw [← hlm, hre]

end FusoReward
